import Mathlib

/-!
Shallow embedding of the Swallow Framework core (observable state engine and
event dispatch / command binding) and proofs of its specification claims.

Source files embedded:
  src/swallow_framework/core/events.py      (Event, EventDispatcher)
  src/swallow_framework/core/utils.py       (validate_non_empty_string, ...)
  src/swallow_framework/state/observable.py (ObservableValue, ObservableList)
  src/swallow_framework/state/property.py   (StateProperty)
  src/swallow_framework/mvcc/model.py       (Model._init_state_properties)
  src/swallow_framework/mvcc/context.py     (Context.map_command / dispatch)

Python exceptions are modelled with Except; Python dicts as association
lists; the identity-keyed sharing of list objects (relevant to the
StateProperty copy-on-materialize behaviour) with an explicit heap of list
cells.
-/

namespace Swallow

/-- Python values, restricted to the shapes the claims need: `None`,
strings, and integers (used as opaque payloads and as ill-typed inputs to
`Event`). -/
inductive PyVal where
  | none
  | str (s : String)
  | int (n : Int)
  deriving DecidableEq, Repr

/-- Python truthiness for the embedded values: `None` is falsy, a string is
falsy iff empty, an int is falsy iff zero. -/
def PyVal.truthy : PyVal → Bool
  | .none => false
  | .str s => s ≠ ""
  | .int n => n ≠ 0

/-- Is the value a `str` instance (Python `isinstance(v, str)`)? -/
def PyVal.isStr : PyVal → Bool
  | .str _ => true
  | _ => false

/-- The single framework error kind the embedded paths raise
(`SwallowArgumentError`). -/
inductive Err where
  | argumentError
  deriving DecidableEq, Repr

/-- `Event` record: `name: str`, `data: Any = None` (events.py lines 16-26). -/
structure Event where
  name : String
  data : PyVal
  deriving DecidableEq, Repr

/-- `Event.__post_init__` guard together with dataclass construction
(events.py lines 28-30): raises `SwallowArgumentError` when
`not self.name or not isinstance(self.name, str)`; `data` defaults to
`None` at the call sites that omit it. -/
def Event.make (name : PyVal) (data : PyVal := PyVal.none) : Except Err Event :=
  if !name.truthy || !name.isStr then
    .error .argumentError
  else
    match name with
    | .str s => .ok { name := s, data := data }
    | _ => .error .argumentError

/-- Python `str.strip()` with no arguments: remove leading and trailing
whitespace characters. -/
def pyStrip (s : String) : String :=
  ⟨((s.data.dropWhile Char.isWhitespace).reverse.dropWhile
      Char.isWhitespace).reverse⟩

/-- `validate_non_empty_string` (utils.py lines 26-41): raises unless the
value is a string whose `strip()` is non-empty. -/
def validate_non_empty_string (value : PyVal) : Except Err Unit :=
  match value with
  | .str s => if pyStrip s = "" then .error .argumentError else .ok ()
  | _ => .error .argumentError

/-- `validate_callback` (utils.py lines 44-46): callbacks in the embedding
are semantic objects, hence always callable; the check never fires. -/
def validate_callback : Except Err Unit := .ok ()

/-! ## EventDispatcher (events.py lines 33-101)

Listeners are kept per event name.  Python stores them in a `set` keyed by
callback identity; the embedding keeps each name's set as a duplicate-free
list over an arbitrary callback type `β` (callbacks are identified
semantically outside the dispatcher). -/

/-- `EventDispatcher._listeners`: `Dict[str, Set[callback]]` as an
association list; an entry is present only while its set is non-empty. -/
structure EventDispatcher (β : Type) where
  listeners : List (String × List β)
  deriving Repr

/-- The empty dispatcher (`EventDispatcher.__init__`). -/
def EventDispatcher.init (β : Type) : EventDispatcher β := ⟨[]⟩

/-- Lookup of a name's listener set (`event_name in self._listeners` plus
`self._listeners[event_name]`). -/
def EventDispatcher.find (d : EventDispatcher β) (name : String) :
    Option (List β) :=
  (d.listeners.find? (fun p => p.1 = name)).map Prod.snd

/-- `set.add` on one name's listener set: no-op when the callback is
already a member. -/
def setAdd [DecidableEq β] (s : List β) (cb : β) : List β :=
  if cb ∈ s then s else s ++ [cb]

/-- Insert a callback under a name, creating the entry when absent
(`defaultdict(set)` behaviour of `self._listeners[event_name].add(cb)`). -/
def insertListener [DecidableEq β] (l : List (String × List β))
    (name : String) (cb : β) : List (String × List β) :=
  match l with
  | [] => [(name, [cb])]
  | (n, s) :: rest =>
      if n = name then (n, setAdd s cb) :: rest
      else (n, s) :: insertListener rest name cb

/-- `EventDispatcher.add_listener` (events.py lines 45-58): validates the
name and callback, then adds the callback to the name's set. -/
def EventDispatcher.add_listener [DecidableEq β] (d : EventDispatcher β)
    (name : String) (cb : β) : Except Err (EventDispatcher β) :=
  match validate_non_empty_string (.str name), validate_callback with
  | .error e, _ => .error e
  | _, .error e => .error e
  | .ok _, .ok _ => .ok ⟨insertListener d.listeners name cb⟩

/-- Remove a callback from a name's set and drop the entry when the set
becomes empty (events.py lines 73-80). -/
def removeListener [DecidableEq β] (l : List (String × List β))
    (name : String) (cb : β) : List (String × List β) :=
  match l with
  | [] => []
  | (n, s) :: rest =>
      if n = name then
        let s' := s.erase cb
        if s' = [] then rest else (n, s') :: rest
      else (n, s) :: removeListener rest name cb

/-- `EventDispatcher.remove_listener` (events.py lines 60-80): validates,
then best-effort removal (absent name or callback is a silent no-op). -/
def EventDispatcher.remove_listener [DecidableEq β] (d : EventDispatcher β)
    (name : String) (cb : β) : Except Err (EventDispatcher β) :=
  match validate_non_empty_string (.str name), validate_callback with
  | .error e, _ => .error e
  | _, .error e => .error e
  | .ok _, .ok _ => .ok ⟨removeListener d.listeners name cb⟩

/-- Result of one `dispatch` call: the invocations performed (callback and
the event it received, in loop order) and whether the no-listener warning
path was taken. -/
structure DispatchResult (β : Type) where
  invoked : List (β × Event)
  warned : Bool
  deriving Repr

/-- The dispatch loop (events.py lines 97-101): each callback is invoked
with the event inside `try`; a raising callback (`call cb e = .error _`) is
caught and logged, and the loop continues with the remaining callbacks. -/
def dispatchLoop (call : β → Event → Except Unit Unit) (e : Event) :
    List β → List (β × Event)
  | [] => []
  | cb :: rest =>
      match call cb e with
      | .ok _ => (cb, e) :: dispatchLoop call e rest
      | .error _ => (cb, e) :: dispatchLoop call e rest

/-- `EventDispatcher.dispatch` (events.py lines 82-101): if the event's
name has no listeners, log a warning and return; otherwise run the loop.
The result is `.ok` exactly when the call returns normally to the caller. -/
def EventDispatcher.dispatch (d : EventDispatcher β)
    (call : β → Event → Except Unit Unit) (e : Event) :
    Except Err (DispatchResult β) :=
  match d.find e.name with
  | none => .ok { invoked := [], warned := true }
  | some cbs => .ok { invoked := dispatchLoop call e cbs, warned := false }

/-! ## Observable scalar container (observable.py lines 51-84)

Notifications are modelled as the list of values passed to the composed
`_notify_callback` chain during the call, in order. -/

/-- `ObservableValue`: wraps `_value` (observable.py lines 67-68). -/
structure ObservableValue (α : Type) where
  value : α
  deriving DecidableEq, Repr

/-- The `value` setter (observable.py lines 75-80): store and notify only
when `self._value != new_value`; `_notify` passes the already-updated
stored value to the callback chain. -/
def ObservableValue.setValue [DecidableEq α] (c : ObservableValue α)
    (new : α) : ObservableValue α × List α :=
  if c.value ≠ new then ({ value := new }, [new]) else (c, [])

/-! ## Python list mutation semantics

The underlying `list` operations used by `ObservableList`, including
negative-index normalisation and the exceptions (`IndexError`,
`ValueError`) raised before any notification. -/

/-- Normalise a Python index against a length: negative indices count from
the end; out-of-range yields an exception (`none`). -/
def pyNormIdx (i : Int) (len : Nat) : Option Nat :=
  let j := if i < 0 then i + (len : Int) else i
  if 0 ≤ j ∧ j < (len : Int) then some j.toNat else none

/-- `list.insert` position clamping: negative indices count from the end,
then the position is clamped into `[0, len]`. -/
def pyInsertPos (i : Int) (len : Nat) : Nat :=
  let j := if i < 0 then i + (len : Int) else i
  if j < 0 then 0 else min j.toNat len

/-- The structural mutations of `ObservableList` (observable.py lines
282-313). -/
inductive Mutation (α : Type) where
  | setitem (i : Int) (v : α)
  | delitem (i : Int)
  | insert (i : Int) (v : α)
  | append (v : α)
  | remove (v : α)
  | extend (vs : List α)
  | clear
  | pop (i : Int)
  deriving DecidableEq, Repr

/-- Effect of one mutation on the wrapped list; `.error` is the exception
the underlying `list` operation raises (in which case `_notify` is never
reached).  `pop` also returns the removed element to the caller, which the
notification claims do not use. -/
def pyMutate [DecidableEq α] : Mutation α → List α → Except Unit (List α)
  | .setitem i v, l =>
      match pyNormIdx i l.length with
      | some j => .ok (l.set j v)
      | none => .error ()
  | .delitem i, l =>
      match pyNormIdx i l.length with
      | some j => .ok (l.eraseIdx j)
      | none => .error ()
  | .insert i v, l =>
      let j := pyInsertPos i l.length
      .ok (l.take j ++ v :: l.drop j)
  | .append v, l => .ok (l ++ [v])
  | .remove v, l => if v ∈ l then .ok (l.erase v) else .error ()
  | .extend vs, l => .ok (l ++ vs)
  | .clear, _ => .ok []
  | .pop i, l =>
      match pyNormIdx i l.length with
      | some j => .ok (l.eraseIdx j)
      | none => .error ()

/-! ## Observable ordered collection (observable.py lines 254-338) -/

/-- `ObservableList` state: the wrapped list plus the batching flags
(observable.py lines 274-277). -/
structure ObservableList (α : Type) where
  value : List α
  batch_updates : Bool
  pending_notification : Bool
  deriving DecidableEq, Repr

/-- `ObservableList._notify` (observable.py lines 327-332): while batching,
set the pending flag and emit nothing; otherwise pass the current list to
the callback chain. -/
def ObservableList.notify (s : ObservableList α) :
    ObservableList α × List (List α) :=
  if s.batch_updates then ({ s with pending_notification := true }, [])
  else (s, [s.value])

/-- One mutating call on an `ObservableList` (observable.py lines 282-313):
apply the underlying list operation, then `_notify`; a raising list
operation propagates before any notification. -/
def ObservableList.mutate [DecidableEq α] (s : ObservableList α)
    (m : Mutation α) : Except Unit (ObservableList α × List (List α)) :=
  match pyMutate m s.value with
  | .error e => .error e
  | .ok v => .ok (ObservableList.notify { s with value := v })

/-- `begin_batch_update` (observable.py lines 315-318). -/
def ObservableList.begin_batch_update (s : ObservableList α) :
    ObservableList α :=
  { s with batch_updates := true, pending_notification := false }

/-- `end_batch_update` (observable.py lines 320-325): stop batching and, if
a notification is pending, fire exactly one with the current list. -/
def ObservableList.end_batch_update (s : ObservableList α) :
    ObservableList α × List (List α) :=
  if s.pending_notification then
    ({ s with batch_updates := false, pending_notification := false },
     [s.value])
  else ({ s with batch_updates := false }, [])

/-- Run a sequence of mutating calls, threading the state and concatenating
the emitted notifications; the first exception aborts the sequence. -/
def runMutations [DecidableEq α] :
    List (Mutation α) → ObservableList α →
    Except Unit (ObservableList α × List (List α))
  | [], s => .ok (s, [])
  | m :: ms, s =>
      match s.mutate m with
      | .error e => .error e
      | .ok (s₁, out₁) =>
          match runMutations ms s₁ with
          | .error e => .error e
          | .ok (s₂, out₂) => .ok (s₂, out₁ ++ out₂)

/-! ## StateProperty (property.py lines 11-72)

The descriptor's per-instance sharing behaviour depends on Python object
identity (which list object a container wraps, `self.initial[:]` making a
copy), so the list case is modelled with an explicit heap of list cells:
a cell index stands for a Python list object. Instances are identified by
`Nat` keys, as are registered change callbacks. -/

/-- A heap of Python list objects: an allocation counter and the cell
contents. -/
structure Heap (α : Type) where
  next : Nat
  mem : Nat → List α

/-- Allocate a fresh list object holding `v`. -/
def Heap.alloc (h : Heap α) (v : List α) : Nat × Heap α :=
  (h.next, ⟨h.next + 1, fun r => if r = h.next then v else h.mem r⟩)

/-- Overwrite the contents of the list object `r`. -/
def Heap.write (h : Heap α) (r : Nat) (v : List α) : Heap α :=
  ⟨h.next, fun q => if q = r then v else h.mem q⟩

/-- An `ObservableList` container as created by `StateProperty.__get__`
(property.py lines 38-41): it wraps the list object `ref`, carries the
chain of callbacks registered through `on_change` (observable.py lines
34-44; the chain invokes the earlier-composed callbacks first, so the list
is in registration order), and the batching flags. -/
structure ObsListC where
  ref : Nat
  callbacks : List Nat
  batch : Bool
  pending : Bool
  deriving DecidableEq, Repr

/-- A `StateProperty` declared with a list initial value: the declared
initial list object and the per-instance `data` dictionary (property.py
lines 27-29). -/
structure StatePropL (α : Type) where
  initialRef : Nat
  data : List (Nat × ObsListC)

/-- Dictionary lookup keyed by instance. -/
def lookupInst (data : List (Nat × γ)) (i : Nat) : Option γ :=
  match data with
  | [] => none
  | (j, c) :: rest => if j = i then some c else lookupInst rest i

/-- Replace the entry for instance `i`. -/
def setInst (data : List (Nat × γ)) (i : Nat) (c : γ) : List (Nat × γ) :=
  data.map fun q => if q.1 = i then (i, c) else q

/-- `StateProperty.__get__` for a list-valued property (property.py lines
31-48): on first access allocate a container wrapping a fresh copy
`self.initial[:]` of the declared initial list; afterwards reuse it. -/
def StatePropL.get (sp : StatePropL α) (h : Heap α) (inst : Nat) :
    StatePropL α × Heap α × ObsListC :=
  match lookupInst sp.data inst with
  | some c => (sp, h, c)
  | none =>
      let (r, h') := h.alloc (h.mem sp.initialRef)
      let c : ObsListC := ⟨r, [], false, false⟩
      ({ sp with data := sp.data ++ [(inst, c)] }, h', c)

/-- `_notify` of a state-property container: while batching set the
pending flag; otherwise invoke every registered callback, in order, with
the wrapped list's current contents. -/
def ObsListC.notifyC (c : ObsListC) (h : Heap α) :
    ObsListC × List (Nat × List α) :=
  if c.batch then ({ c with pending := true }, [])
  else (c, c.callbacks.map fun cb => (cb, h.mem c.ref))

/-- A total mutating call on a container: transform the wrapped list
object in place, then `_notify`. -/
def ObsListC.applyListOp (c : ObsListC) (h : Heap α)
    (f : List α → List α) : ObsListC × Heap α × List (Nat × List α) :=
  let h' := h.write c.ref (f (h.mem c.ref))
  let (c', out) := c.notifyC h'
  (c', h', out)

/-- `ObservableList.clear` on a container (observable.py lines 306-308). -/
def ObsListC.clearC (c : ObsListC) (h : Heap α) :
    ObsListC × Heap α × List (Nat × List α) :=
  c.applyListOp h fun _ => []

/-- `ObservableList.extend` on a container (observable.py lines 302-304). -/
def ObsListC.extendC (c : ObsListC) (h : Heap α) (vs : List α) :
    ObsListC × Heap α × List (Nat × List α) :=
  c.applyListOp h fun l => l ++ vs

/-- A general mutating call on a container, with the exception behaviour
of the underlying list operation. -/
def ObsListC.mutateC [DecidableEq α] (c : ObsListC) (h : Heap α)
    (m : Mutation α) : Except Unit (ObsListC × Heap α × List (Nat × List α)) :=
  match pyMutate m (h.mem c.ref) with
  | .error e => .error e
  | .ok v =>
      let h' := h.write c.ref v
      .ok (let (c', out) := c.notifyC h'; (c', h', out))

/-- `Observable.on_change` reached through the descriptor (property.py
lines 67-72, observable.py lines 34-44): materialize the container, then
compose the new callback after the existing chain. -/
def StatePropL.on_change (sp : StatePropL α) (h : Heap α) (inst : Nat)
    (cb : Nat) : StatePropL α × Heap α :=
  let (sp₁, h₁, c) := sp.get h inst
  let c' := { c with callbacks := c.callbacks ++ [cb] }
  ({ sp₁ with data := setInst sp₁.data inst c' }, h₁)

/-- A mutating call on an instance's field, e.g. `model.items.append(x)`:
`__get__` returns the container and the call mutates it. -/
def StatePropL.mutate [DecidableEq α] (sp : StatePropL α) (h : Heap α)
    (inst : Nat) (m : Mutation α) :
    Except Unit (StatePropL α × Heap α × List (Nat × List α)) :=
  let (sp₁, h₁, c) := sp.get h inst
  match c.mutateC h₁ m with
  | .error e => .error e
  | .ok (c', h₂, out) =>
      .ok ({ sp₁ with data := setInst sp₁.data inst c' }, h₂, out)

/-- `StateProperty.__set__` for a list-valued property (property.py lines
50-57): fetch the existing container, `clear()` it, and, when the assigned
value is not `None`, `extend()` it with the new elements — the container
object itself is never rebound. -/
def StatePropL.set [DecidableEq α] (sp : StatePropL α) (h : Heap α)
    (inst : Nat) (value : Option (List α)) :
    StatePropL α × Heap α × List (Nat × List α) :=
  let (sp₁, h₁, c) := sp.get h inst
  let (c₁, h₂, out₁) := c.clearC h₁
  match value with
  | none => ({ sp₁ with data := setInst sp₁.data inst c₁ }, h₂, out₁)
  | some vs =>
      let (c₂, h₃, out₂) := c₁.extendC h₂ vs
      ({ sp₁ with data := setInst sp₁.data inst c₂ }, h₃, out₁ ++ out₂)

/-- A `StateProperty` declared with a scalar initial value: the declared
initial value and the per-instance containers (property.py lines 43-46). -/
structure StatePropV (α : Type) where
  initial : α
  data : List (Nat × ObservableValue α)

/-- `StateProperty.__get__` for a scalar-valued property: on first access
create an `ObservableValue` seeded with the declared initial value. -/
def StatePropV.get (sp : StatePropV α) (inst : Nat) :
    StatePropV α × ObservableValue α :=
  match lookupInst sp.data inst with
  | some c => (sp, c)
  | none =>
      let c : ObservableValue α := ⟨sp.initial⟩
      ({ sp with data := sp.data ++ [(inst, c)] }, c)

/-- `StateProperty.__set__` for a scalar-valued property (property.py
lines 58-60): delegate to the container's value setter. -/
def StatePropV.set [DecidableEq α] (sp : StatePropV α) (inst : Nat)
    (v : α) : StatePropV α × List α :=
  let (sp₁, c) := sp.get inst
  let (c', out) := c.setValue v
  ({ sp₁ with data := setInst sp₁.data inst c' }, out)

/-! ## Model construction (model.py lines 27-37)

`_init_state_properties` loops over `type(self).__dict__.items()` — the
most-derived class's own attribute dictionary — and touches each
`StateProperty` it finds there. A Python class is modelled by its own
dictionary plus the attributes contributed by its bases (the rest of the
MRO), each attribute tagged with whether it is a `StateProperty`. -/

/-- A model class: own `__dict__` entries and the attributes visible
through the base classes (not shadowed by an own entry). -/
structure PyClass where
  ownDict : List (String × Bool)
  baseDict : List (String × Bool)
  deriving DecidableEq, Repr

/-- Attribute lookup along the MRO: own dictionary first, then bases. -/
def PyClass.lookupAttr (c : PyClass) (n : String) : Option Bool :=
  match (c.ownDict.find? fun p => p.1 = n) with
  | some p => some p.2
  | none => ((c.baseDict.find? fun p => p.1 = n)).map Prod.snd

/-- The state-property fields declared for the type: every attribute name
that resolves, along the MRO, to a `StateProperty`. -/
def PyClass.declaredStateProps (c : PyClass) : List String :=
  (((c.ownDict ++ c.baseDict).map Prod.fst).dedup).filter
    fun n => c.lookupAttr n = some true

/-- `Model._init_state_properties` (model.py lines 31-37): the fields
accessed (one `getattr` each, in dictionary order) are exactly the
`StateProperty` entries of `type(self).__dict__`. -/
def PyClass.initStateProperties (c : PyClass) : List String :=
  (c.ownDict.filter fun p => p.2).map Prod.fst

/-! ## Context (context.py lines 31-54)

`map_command` wraps the command in a fresh `lambda event:
command.execute(event.data)` and registers that lambda with the
dispatcher. Lambdas are distinct objects, so a listener is modelled as a
pair of a fresh tag and the command it wraps; commands are identified by
`Nat` keys. -/

/-- A `Context`: the dispatcher (whose callbacks are the command-wrapping
lambdas) plus the supply of fresh lambda identities. -/
structure Context where
  dispatcher : EventDispatcher (Nat × Nat)
  next : Nat

/-- A fresh context over a fresh dispatcher. -/
def Context.init : Context := ⟨EventDispatcher.init _, 0⟩

/-- `Context.map_command` (context.py lines 35-44): register a fresh
command-invoking lambda as a listener for the event name. -/
def Context.map_command (ctx : Context) (name : String) (cmd : Nat) :
    Except Err Context :=
  match ctx.dispatcher.add_listener name (ctx.next, cmd) with
  | .error e => .error e
  | .ok d => .ok ⟨d, ctx.next + 1⟩

/-- Install a list of `(event name, command)` mappings in order. -/
def runMaps : List (String × Nat) → Context → Except Err Context
  | [], ctx => .ok ctx
  | (n, c) :: ms, ctx =>
      match ctx.map_command n c with
      | .error e => .error e
      | .ok ctx' => runMaps ms ctx'

/-- `Context.dispatch` (context.py lines 46-54) forwards to the
dispatcher; each invoked lambda calls `command.execute(event.data)`, whose
outcome is given by the semantic function `exec`. -/
def Context.dispatch (ctx : Context) (exec : Nat → PyVal → Except Unit Unit)
    (e : Event) : Except Err (DispatchResult (Nat × Nat)) :=
  ctx.dispatcher.dispatch (fun lam ev => exec lam.2 ev.data) e

/-- The `execute` calls performed during one dispatch: for every invoked
lambda, the wrapped command together with the payload it received. -/
def executeCalls (r : DispatchResult (Nat × Nat)) : List (Nat × PyVal) :=
  r.invoked.map fun q => (q.1.2, q.2.data)

/-! ## Dispatcher operation sequences

The only ways the registry changes are `add_listener` and
`remove_listener`; a raising call leaves the registry untouched (both
validate before mutating).  `runOps` models an arbitrary client performing
a sequence of such calls, catching any raised errors. -/

/-- A registry-changing dispatcher call. -/
inductive DispOp (β : Type) where
  | add (name : String) (cb : β)
  | remove (name : String) (cb : β)

/-- Perform one call; on a raised validation error the registry is
unchanged (validation precedes any mutation in both methods). -/
def applyOp [DecidableEq β] (d : EventDispatcher β) :
    DispOp β → EventDispatcher β
  | .add n cb =>
      match d.add_listener n cb with
      | .ok d' => d'
      | .error _ => d
  | .remove n cb =>
      match d.remove_listener n cb with
      | .ok d' => d'
      | .error _ => d

/-- Perform a sequence of calls. -/
def runOps [DecidableEq β] (ops : List (DispOp β)) (d : EventDispatcher β) :
    EventDispatcher β :=
  ops.foldl applyOp d

/-- How many times `x` occurs in `l` (used to state exactly-once
invocation properties). -/
def occurrences [DecidableEq γ] (x : γ) (l : List γ) : Nat :=
  (l.filter fun y => y = x).length

/-- The listener set currently registered for a name (empty when the name
has no entry). -/
def listenersOf (d : EventDispatcher β) (n : String) : List β :=
  (d.find n).getD []

/-- Every name with an entry in the registry has a non-whitespace name:
the invariant `add_listener`'s validation maintains. -/
def validNames (d : EventDispatcher β) : Prop :=
  ∀ p ∈ d.listeners, pyStrip p.1 ≠ ""

/-- All lambda tags stored in the dispatcher are below the context's
freshness counter. -/
def tagsBelow (d : EventDispatcher (Nat × Nat)) (k : Nat) : Prop :=
  ∀ p ∈ d.listeners, ∀ q ∈ p.2, q.1 < k

/-- The listeners that installing the mappings `ms` (lambda tags assigned
from `start` onwards) adds for the name `n`, in registration order. -/
def expectedListeners (start : Nat) :
    List (String × Nat) → String → List (Nat × Nat)
  | [], _ => []
  | (n₀, c) :: ms, n =>
      if n₀ = n then (start, c) :: expectedListeners (start + 1) ms n
      else expectedListeners (start + 1) ms n

/-! ## Helper lemmas -/

/-- An element of a duplicate-free list occurs in it exactly once. -/
theorem occurrences_of_nodup [DecidableEq γ] {l : List γ} {x : γ}
    (hn : l.Nodup) (hx : x ∈ l) : occurrences x l = 1 := by
  induction l with
  | nil => cases hx
  | cons a l ih =>
      rw [List.nodup_cons] at hn
      rw [List.mem_cons] at hx
      unfold occurrences
      by_cases hax : a = x
      · subst hax
        have hnil : l.filter (fun y => y = a) = [] := by
          apply List.filter_eq_nil_iff.mpr
          intro y hy
          simp only [decide_eq_true_eq]
          intro hya
          exact hn.1 (hya ▸ hy)
        simp [hnil]
      · have hx' : x ∈ l := by
          rcases hx with h | h
          · exact absurd h.symm hax
          · exact h
        have := ih hn.2 hx'
        unfold occurrences at this
        simpa [hax] using this

/-- Pairing every element with a fixed second component preserves
occurrence counts. -/
theorem occurrences_map_pair [DecidableEq γ] (e : Event) (x : γ)
    (l : List γ) :
    occurrences (x, e) (l.map fun y => (y, e)) = occurrences x l := by
  induction l with
  | nil => rfl
  | cons a l ih =>
      unfold occurrences at *
      by_cases hax : a = x
      · subst hax
        simpa using ih
      · simpa [hax, Prod.ext_iff] using ih

/-- The dispatch loop invokes every listener in order, whether or not the
callback raises: the `except` clause catches, logs, and continues. -/
theorem dispatchLoop_eq (call : β → Event → Except Unit Unit) (e : Event)
    (cbs : List β) :
    dispatchLoop call e cbs = cbs.map fun cb => (cb, e) := by
  induction cbs with
  | nil => rfl
  | cons c rest ih =>
      unfold dispatchLoop
      cases call c e <;> simp [ih]

/-! ## Claim theorems -/

/-- Membership in a `setAdd` result comes from the old set or is the new
callback. -/
theorem mem_setAdd [DecidableEq β] {s : List β} {cb q : β}
    (h : q ∈ setAdd s cb) : q ∈ s ∨ q = cb := by
  unfold setAdd at h
  by_cases hmem : cb ∈ s
  · rw [if_pos hmem] at h
    exact Or.inl h
  · rw [if_neg hmem] at h
    rcases List.mem_append.mp h with h' | h'
    · exact Or.inl h'
    · exact Or.inr (List.mem_singleton.mp h')

/-- Every callback stored after `insertListener` either was stored before
or is the inserted one; every entry name was present before or is the
inserted name. -/
theorem mem_insertListener [DecidableEq β] {l : List (String × List β)}
    {n : String} {cb : β} {p : String × List β}
    (hp : p ∈ insertListener l n cb) :
    (p.1 = n ∨ ∃ p₀ ∈ l, p.1 = p₀.1) ∧
    ∀ q ∈ p.2, (∃ p₀ ∈ l, q ∈ p₀.2) ∨ q = cb := by
  induction l with
  | nil =>
      simp only [insertListener, List.mem_singleton] at hp
      subst hp
      refine ⟨Or.inl rfl, ?_⟩
      intro q hq
      exact Or.inr (List.mem_singleton.mp hq)
  | cons hd tl ih =>
      obtain ⟨n₀, s₀⟩ := hd
      by_cases hn : n₀ = n
      · rw [insertListener, if_pos hn] at hp
        rcases List.mem_cons.mp hp with h' | h'
        · subst h'
          refine ⟨Or.inl hn, ?_⟩
          intro q hq
          rcases mem_setAdd hq with h'' | h''
          · exact Or.inl ⟨(n₀, s₀), List.mem_cons_self _ _, h''⟩
          · exact Or.inr h''
        · refine ⟨Or.inr ⟨p, List.mem_cons_of_mem _ h', rfl⟩, ?_⟩
          intro q hq
          exact Or.inl ⟨p, List.mem_cons_of_mem _ h', hq⟩
      · rw [insertListener, if_neg hn] at hp
        rcases List.mem_cons.mp hp with h' | h'
        · subst h'
          refine ⟨Or.inr ⟨(n₀, s₀), List.mem_cons_self _ _, rfl⟩, ?_⟩
          intro q hq
          exact Or.inl ⟨(n₀, s₀), List.mem_cons_self _ _, hq⟩
        · obtain ⟨h₁, h₂⟩ := ih h'
          constructor
          · rcases h₁ with h₁ | ⟨p₀, hp₀, hpp⟩
            · exact Or.inl h₁
            · exact Or.inr ⟨p₀, List.mem_cons_of_mem _ hp₀, hpp⟩
          · intro q hq
            rcases h₂ q hq with ⟨p₀, hp₀, hqq⟩ | h''
            · exact Or.inl ⟨p₀, List.mem_cons_of_mem _ hp₀, hqq⟩
            · exact Or.inr h''

/-- Every entry left by `removeListener` has a name that was present
before. -/
theorem mem_removeListener [DecidableEq β] {l : List (String × List β)}
    {n : String} {cb : β} {p : String × List β}
    (hp : p ∈ removeListener l n cb) : ∃ p₀ ∈ l, p.1 = p₀.1 := by
  induction l with
  | nil => simp [removeListener] at hp
  | cons hd tl ih =>
      obtain ⟨n₀, s₀⟩ := hd
      by_cases hn : n₀ = n
      · rw [removeListener, if_pos hn] at hp
        by_cases hs : s₀.erase cb = []
        · rw [if_pos hs] at hp
          exact ⟨p, List.mem_cons_of_mem _ hp, rfl⟩
        · rw [if_neg hs] at hp
          rcases List.mem_cons.mp hp with h' | h'
          · subst h'
            exact ⟨(n₀, s₀), List.mem_cons_self _ _, rfl⟩
          · exact ⟨p, List.mem_cons_of_mem _ h', rfl⟩
      · rw [removeListener, if_neg hn] at hp
        rcases List.mem_cons.mp hp with h' | h'
        · subst h'
          exact ⟨(n₀, s₀), List.mem_cons_self _ _, rfl⟩
        · obtain ⟨p₀, hp₀, hpp⟩ := ih h'
          exact ⟨p₀, List.mem_cons_of_mem _ hp₀, hpp⟩

/-- Any client sequence of `add_listener` / `remove_listener` calls keeps
every registered name non-whitespace. -/
theorem validNames_runOps [DecidableEq β] (ops : List (DispOp β)) :
    ∀ d : EventDispatcher β, validNames d → validNames (runOps ops d) := by
  induction ops with
  | nil => exact fun d hv => hv
  | cons op ops ih =>
      intro d hv
      refine ih (applyOp d op) ?_
      cases op with
      | add n cb =>
          by_cases hn : pyStrip n = ""
          · simpa [applyOp, EventDispatcher.add_listener,
              validate_non_empty_string, validate_callback, hn] using hv
          · have hstep : applyOp d (DispOp.add n cb) =
                ⟨insertListener d.listeners n cb⟩ := by
              simp [applyOp, EventDispatcher.add_listener,
                validate_non_empty_string, validate_callback, hn]
            rw [hstep]
            intro p hp
            rcases (mem_insertListener hp).1 with h' | ⟨p₀, hp₀, hpp⟩
            · rw [h']
              exact hn
            · rw [hpp]
              exact hv p₀ hp₀
      | remove n cb =>
          by_cases hn : pyStrip n = ""
          · simpa [applyOp, EventDispatcher.remove_listener,
              validate_non_empty_string, validate_callback, hn] using hv
          · have hstep : applyOp d (DispOp.remove n cb) =
                ⟨removeListener d.listeners n cb⟩ := by
              simp [applyOp, EventDispatcher.remove_listener,
                validate_non_empty_string, validate_callback, hn]
            rw [hstep]
            intro p hp
            obtain ⟨p₀, hp₀, hpp⟩ := mem_removeListener hp
            rw [hpp]
            exact hv p₀ hp₀

/-- A whitespace-only name has no entry in a registry whose names are all
non-whitespace. -/
theorem find_none_of_validNames {β : Type} {d : EventDispatcher β}
    {w : String} (hv : validNames d) (hws : pyStrip w = "") :
    d.find w = none := by
  unfold EventDispatcher.find
  cases hf : d.listeners.find? fun p => p.1 = w with
  | none => rfl
  | some p =>
      have hpw : p.1 = w := by
        have := List.find?_some hf
        simpa using this
      have hmem := List.mem_of_find?_eq_some hf
      exact absurd (hpw ▸ hws) (hv p hmem)

/-- C10: A whitespace-only (but non-empty) string is a valid event name
for `Event` construction, yet both `add_listener` and `remove_listener`
reject it, so no dispatcher reachable by add/remove calls ever has a
listener under it, and dispatching such an event always takes the
no-listener warning path and returns normally. -/
theorem whitespace_event_names_dead {β : Type} [DecidableEq β]
    (w : String) (data : PyVal) (cb : β) (d : EventDispatcher β)
    (ops : List (DispOp β)) (call : β → Event → Except Unit Unit)
    (hw : w ≠ "") (hws : pyStrip w = "") :
    Event.make (.str w) data = .ok ⟨w, data⟩ ∧
    d.add_listener w cb = .error .argumentError ∧
    d.remove_listener w cb = .error .argumentError ∧
    (runOps ops (EventDispatcher.init β)).dispatch call ⟨w, data⟩ =
      .ok ⟨[], true⟩ := by
  refine ⟨?_, ?_, ?_, ?_⟩
  · simp [Event.make, PyVal.truthy, PyVal.isStr, hw]
  · simp [EventDispatcher.add_listener, validate_non_empty_string, hws]
  · simp [EventDispatcher.remove_listener, validate_non_empty_string, hws]
  · have hv : validNames (runOps ops (EventDispatcher.init β)) := by
      refine validNames_runOps ops _ ?_
      intro p hp
      simp [EventDispatcher.init] at hp
    have hfind := find_none_of_validNames hv hws
    simp [EventDispatcher.dispatch, hfind]

/-- Witness for `whitespace_event_names_dead` at the name `" "` after a
concrete sequence of dispatcher calls. -/
theorem whitespace_event_names_dead_witness :
    Event.make (.str " ") (.int 7) = .ok ⟨" ", .int 7⟩ ∧
    (EventDispatcher.mk [("E", [5])] : EventDispatcher Nat).add_listener
        " " 9 = .error .argumentError ∧
    (EventDispatcher.mk [("E", [5])] : EventDispatcher Nat).remove_listener
        " " 9 = .error .argumentError ∧
    (runOps [DispOp.add "E" 0, DispOp.add " " 1, DispOp.remove "E" 0]
        (EventDispatcher.init Nat)).dispatch (fun _ _ => .ok ())
        ⟨" ", .int 7⟩ = .ok ⟨[], true⟩ :=
  whitespace_event_names_dead " " (.int 7) 9 ⟨[("E", [5])]⟩
    [DispOp.add "E" 0, DispOp.add " " 1, DispOp.remove "E" 0]
    (fun _ _ => .ok ()) (by decide) (by rfl)

/-- C8: An event's fields are fixed at construction and no operation of
the dispatch path changes them: every listener invocation during a
dispatch of the event receives it with exactly the constructed name and
payload. -/
theorem event_fields_stable {β : Type} (s : String) (p : PyVal)
    (ev : Event) (d : EventDispatcher β)
    (call : β → Event → Except Unit Unit) (r : DispatchResult β)
    (hmk : Event.make (.str s) p = .ok ev)
    (hd : d.dispatch call ev = .ok r) :
    ev.name = s ∧ ev.data = p ∧ ∀ q ∈ r.invoked, q.2 = ev := by
  have hev : ev = ⟨s, p⟩ := by
    unfold Event.make at hmk
    by_cases hs : s = ""
    · subst hs
      simp [PyVal.truthy, PyVal.isStr] at hmk
    · simp [PyVal.truthy, PyVal.isStr, hs] at hmk
      exact hmk.symm
  refine ⟨by rw [hev], by rw [hev], ?_⟩
  intro q hq
  unfold EventDispatcher.dispatch at hd
  cases hf : d.find ev.name with
  | none =>
      rw [hf] at hd
      simp only [Except.ok.injEq] at hd
      rw [← hd] at hq
      simp at hq
  | some cbs =>
      rw [hf] at hd
      simp only [Except.ok.injEq] at hd
      rw [← hd] at hq
      simp only [dispatchLoop_eq] at hq
      obtain ⟨cb, _, hcb⟩ := List.mem_map.mp hq
      rw [← hcb]

/-- Witness for `event_fields_stable`: one listener receiving the
constructed event unchanged. -/
theorem event_fields_stable_witness :
    (⟨"E", .int 3⟩ : Event).name = "E" ∧
    (⟨"E", .int 3⟩ : Event).data = .int 3 ∧
    ((0 : Nat), (⟨"E", .int 3⟩ : Event)).2 = ⟨"E", .int 3⟩ := by
  have h := event_fields_stable (β := Nat) "E" (.int 3) ⟨"E", .int 3⟩
      ⟨[("E", [0])]⟩ (fun _ _ => .ok ()) ⟨[(0, ⟨"E", .int 3⟩)], false⟩
      (by rfl) (by rfl)
  exact ⟨h.1, h.2.1, h.2.2 (0, ⟨"E", .int 3⟩) (by simp)⟩

/-- C6: For every non-empty string name, `Event(name)` construction
succeeds with payload `None` by default, while `Event("")`, `Event(None)`
and `Event(123)` each raise a `SwallowArgumentError` at construction. -/
theorem event_validation (s : String) (hs : s ≠ "") :
    Event.make (.str s) = .ok ⟨s, .none⟩ ∧
    Event.make (.str "") = .error .argumentError ∧
    Event.make PyVal.none = .error .argumentError ∧
    Event.make (.int 123) = .error .argumentError := by
  refine ⟨?_, ?_, rfl, rfl⟩
  · simp [Event.make, PyVal.truthy, PyVal.isStr, hs]
  · simp [Event.make, PyVal.truthy]

/-- Witness for `event_validation` at the concrete name `"E"`. -/
theorem event_validation_witness :
    Event.make (.str "E") = .ok ⟨"E", .none⟩ ∧
    Event.make (.str "") = .error .argumentError ∧
    Event.make PyVal.none = .error .argumentError ∧
    Event.make (.int 123) = .error .argumentError :=
  event_validation "E" (by decide)

/-- C2: Setting an `ObservableValue` to a value equal to its current value
stores nothing and fires no notification; setting it to a non-equal value
stores the new value and fires exactly one notification carrying it. -/
theorem observable_value_set [DecidableEq α] (c : ObservableValue α)
    (x : α) :
    (c.value = x → c.setValue x = (c, [])) ∧
    (c.value ≠ x → c.setValue x = (⟨x⟩, [x])) := by
  constructor
  · intro h
    simp [ObservableValue.setValue, h]
  · intro h
    simp [ObservableValue.setValue, h]

/-- Witness for `observable_value_set`: a no-op write and a changing
write on a concrete container. -/
theorem observable_value_set_witness :
    (ObservableValue.mk (0 : Int)).setValue 0 = (⟨0⟩, []) ∧
    (ObservableValue.mk (0 : Int)).setValue 1 = (⟨1⟩, [1]) :=
  ⟨(observable_value_set ⟨0⟩ 0).1 rfl,
   (observable_value_set ⟨0⟩ 1).2 (by decide)⟩

/-- C1: When an earlier listener raises during `dispatch`, the exception
is caught inside the loop, every listener (the remaining ones included) is
still invoked exactly once with the event, and `dispatch` returns
normally. -/
theorem dispatch_isolation {β : Type} [DecidableEq β]
    (d : EventDispatcher β) (call : β → Event → Except Unit Unit)
    (e : Event) (cbs l₁ l₂ : List β) (c : β)
    (hfind : d.find e.name = some cbs)
    (hsplit : cbs = l₁ ++ c :: l₂)
    (_hraise : call c e = .error ())
    (hnodup : cbs.Nodup) :
    d.dispatch call e = .ok ⟨cbs.map fun cb => (cb, e), false⟩ ∧
    ∀ cb ∈ l₂, occurrences (cb, e) (cbs.map fun cb => (cb, e)) = 1 := by
  constructor
  · simp [EventDispatcher.dispatch, hfind, dispatchLoop_eq]
  · intro cb hcb
    have hmem : cb ∈ cbs := by
      rw [hsplit]
      exact List.mem_append_right _ (List.mem_cons_of_mem _ hcb)
    rw [occurrences_map_pair]
    exact occurrences_of_nodup hnodup hmem

/-- Witness for `dispatch_isolation`: two listeners where the first
raises; both are invoked with the event and the call returns normally. -/
theorem dispatch_isolation_witness :
    (EventDispatcher.mk [("E", [0, 1])] : EventDispatcher Nat).dispatch
        (fun cb _ => if cb = 0 then .error () else .ok ())
        ⟨"E", .none⟩ =
      .ok ⟨[(0, ⟨"E", .none⟩), (1, ⟨"E", .none⟩)], false⟩ ∧
    occurrences (1, (⟨"E", .none⟩ : Event))
        ([0, 1].map fun cb => (cb, (⟨"E", .none⟩ : Event))) = 1 := by
  have h := dispatch_isolation (EventDispatcher.mk [("E", [0, 1])])
      (fun cb _ => if cb = 0 then .error () else .ok ()) ⟨"E", .none⟩
      [0, 1] [] [1] 0 (by rfl) (by rfl) (by rfl) (by decide)
  exact ⟨h.1, h.2 1 (by decide)⟩

/-- While batching is active, every successful mutation emits nothing and
leaves the pending flag set exactly when at least one mutation ran. -/
theorem runMutations_batched [DecidableEq α] (ms : List (Mutation α)) :
    ∀ (s s' : ObservableList α) (out : List (List α)),
      s.batch_updates = true →
      runMutations ms s = .ok (s', out) →
      out = [] ∧ s'.batch_updates = true ∧
        s'.pending_notification =
          (s.pending_notification || !ms.isEmpty) := by
  induction ms with
  | nil =>
      intro s s' out hb h
      unfold runMutations at h
      simp only [Except.ok.injEq, Prod.mk.injEq] at h
      obtain ⟨rfl, rfl⟩ := h
      simp [hb]
  | cons m ms ih =>
      intro s s' out hb h
      unfold runMutations at h
      split at h
      next e heq => simp at h
      next s₁ out₁ hmut =>
        have h₁ : out₁ = [] ∧ s₁.batch_updates = true ∧
            s₁.pending_notification = true := by
          unfold ObservableList.mutate at hmut
          split at hmut
          next e hp => simp at hmut
          next v hp =>
              simp only [ObservableList.notify, hb, if_pos,
                Except.ok.injEq, Prod.mk.injEq] at hmut
              obtain ⟨h₂, h₃⟩ := hmut
              rw [← h₂, ← h₃]
              simp
        obtain ⟨ho₁, hb₁, hp₁⟩ := h₁
        split at h
        next e hr => simp at h
        next s₂ out₂ hr =>
            simp only [Except.ok.injEq, Prod.mk.injEq] at h
            obtain ⟨rfl, rfl⟩ := h
            obtain ⟨ho₂, hb₂, hp₂⟩ := ih s₁ s₂ out₂ hb₁ hr
            refine ⟨by simp [ho₁, ho₂], hb₂, ?_⟩
            rw [hp₂, hp₁]
            simp

/-- C3: For a batch bracketed by `begin_batch_update` and
`end_batch_update`, no notification fires during the batch, and
`end_batch_update` fires exactly one notification with the final list when
at least one mutation ran inside the batch, and none when no mutation
ran. -/
theorem batch_single_notification [DecidableEq α]
    (s₀ s₁ : ObservableList α) (ms : List (Mutation α))
    (out : List (List α))
    (hrun : runMutations ms s₀.begin_batch_update = .ok (s₁, out)) :
    out = [] ∧
    s₁.end_batch_update =
      (⟨s₁.value, false, false⟩, if ms.isEmpty then [] else [s₁.value]) := by
  have hb : (s₀.begin_batch_update).batch_updates = true := rfl
  have hp : (s₀.begin_batch_update).pending_notification = false := rfl
  obtain ⟨ho, _, hpend⟩ := runMutations_batched ms _ s₁ out hb hrun
  rw [hp] at hpend
  refine ⟨ho, ?_⟩
  unfold ObservableList.end_batch_update
  cases hms : ms.isEmpty with
  | true =>
      rw [hms] at hpend
      simp only [Bool.not_true, Bool.false_or] at hpend
      simp [hpend]
  | false =>
      rw [hms] at hpend
      simp only [Bool.not_false, Bool.false_or] at hpend
      simp [hpend]

/-- Witness for `batch_single_notification`: three mutations inside a
batch, nothing emitted during it, one trailing notification with the
final list. -/
theorem batch_single_notification_witness :
    runMutations [Mutation.append 3, Mutation.clear, Mutation.extend [4, 5]]
        (ObservableList.begin_batch_update ⟨([1, 2] : List Int), false, false⟩) =
      .ok (⟨[4, 5], true, true⟩, []) ∧
    ObservableList.end_batch_update ⟨([4, 5] : List Int), true, true⟩ =
      (⟨[4, 5], false, false⟩, [[4, 5]]) := by
  refine ⟨rfl, ?_⟩
  have h := batch_single_notification ⟨([1, 2] : List Int), false, false⟩
      ⟨[4, 5], true, true⟩ [Mutation.append 3, Mutation.clear, Mutation.extend [4, 5]]
      [] rfl
  simpa using h.2

/-- C9 counterexample: a model class that declares no state property of
its own but inherits one from a base class.  The inherited field `"count"`
is declared for the type, yet `_init_state_properties` — which iterates
only `type(self).__dict__` — accesses nothing at construction. -/
theorem model_init_misses_inherited :
    "count" ∈ (PyClass.mk [] [("count", true)]).declaredStateProps ∧
    "count" ∉ (PyClass.mk [] [("count", true)]).initStateProperties := by
  constructor
  · simp [PyClass.declaredStateProps, PyClass.lookupAttr]
  · simp [PyClass.initStateProperties]

/-- C9 amended: the `Model` constructor accesses exactly the
state-property fields declared in the instance's own class dictionary,
each exactly once; fields declared only in base classes are not
accessed. -/
theorem model_init_own_fields (c : PyClass)
    (h : (c.ownDict.map Prod.fst).Nodup) :
    (∀ n, n ∈ c.initStateProperties ↔ (n, true) ∈ c.ownDict) ∧
    ∀ n, (n, true) ∈ c.ownDict →
      occurrences n c.initStateProperties = 1 := by
  have hmem : ∀ n, n ∈ c.initStateProperties ↔ (n, true) ∈ c.ownDict := by
    intro n
    unfold PyClass.initStateProperties
    constructor
    · intro hn
      obtain ⟨p, hp, hpn⟩ := List.mem_map.mp hn
      have hp' := List.mem_filter.mp hp
      have hp2 : p.2 = true := by simpa using hp'.2
      have : p = (n, true) := by
        obtain ⟨p1, p2⟩ := p
        simp only [Prod.mk.injEq]
        exact ⟨hpn, hp2⟩
      rw [← this]
      exact hp'.1
    · intro hn
      refine List.mem_map.mpr ⟨(n, true), ?_, rfl⟩
      exact List.mem_filter.mpr ⟨hn, by simp⟩
  refine ⟨hmem, ?_⟩
  intro n hn
  have hnd : ((c.ownDict.filter fun p => p.2).map Prod.fst).Nodup :=
    ((List.filter_sublist c.ownDict).map Prod.fst).nodup h
  exact occurrences_of_nodup hnd ((hmem n).mpr hn)

/-- Witness for `model_init_own_fields` on a class with two own
state properties, one plain attribute, and an inherited state property. -/
theorem model_init_own_fields_witness :
    ("x" ∈ (PyClass.mk [("x", true), ("r", false), ("z", true)]
        [("w", true)]).initStateProperties ↔
      ("x", true) ∈ [("x", true), ("r", false), ("z", true)]) ∧
    occurrences "x" (PyClass.mk [("x", true), ("r", false), ("z", true)]
        [("w", true)]).initStateProperties = 1 := by
  have h := model_init_own_fields
      (PyClass.mk [("x", true), ("r", false), ("z", true)] [("w", true)])
      (by decide)
  exact ⟨h.1 "x", h.2 "x" (by decide)⟩

/-- Reading a freshly written list object yields the written value. -/
theorem Heap.mem_write_self (h : Heap α) (r : Nat) (v : List α) :
    (h.write r v).mem r = v := by
  simp [Heap.write]

/-- Writing one list object leaves every other object unchanged. -/
theorem Heap.mem_write_ne (h : Heap α) {q r : Nat} (v : List α)
    (hqr : q ≠ r) : (h.write r v).mem q = h.mem q := by
  simp [Heap.write, hqr]

/-- Updating an instance's entry makes its lookup return the new
container (provided the instance had an entry). -/
theorem setInst_cons {γ : Type} (p : Nat × γ) (rest : List (Nat × γ))
    (i : Nat) (c : γ) :
    setInst (p :: rest) i c =
      (if p.1 = i then (i, c) else p) :: setInst rest i c := rfl

/-- Updating an instance's entry makes its lookup return the new
container (provided the instance had an entry). -/
theorem lookupInst_setInst_self {γ : Type} (data : List (Nat × γ))
    (i : Nat) (c c₀ : γ) (h : lookupInst data i = some c₀) :
    lookupInst (setInst data i c) i = some c := by
  induction data with
  | nil => simp [lookupInst] at h
  | cons p rest ih =>
      obtain ⟨j, d⟩ := p
      by_cases hji : j = i
      · subst hji
        rw [setInst_cons, if_pos rfl]
        simp [lookupInst]
      · rw [setInst_cons, if_neg hji]
        simp only [lookupInst, if_neg hji] at h ⊢
        exact ih h

/-- Updating one instance's entry leaves every other instance's lookup
unchanged. -/
theorem lookupInst_setInst_other {γ : Type} (data : List (Nat × γ))
    (i j : Nat) (c : γ) (hij : i ≠ j) :
    lookupInst (setInst data i c) j = lookupInst data j := by
  induction data with
  | nil => rfl
  | cons p rest ih =>
      obtain ⟨k, d⟩ := p
      rw [setInst_cons]
      by_cases hk : k = i
      · subst hk
        rw [if_pos rfl]
        simp only [lookupInst, if_neg hij]
        exact ih
      · rw [if_neg hk]
        simp only [lookupInst]
        by_cases hkj : k = j
        · simp [hkj]
        · simp [hkj, ih]

/-- A successful mutating call on a non-batching container leaves the
container unchanged, writes the mutated list into its wrapped object, and
notifies exactly the registered callbacks with the new contents. -/
theorem mutateC_nonbatch {α : Type} [DecidableEq α] {c : ObsListC}
    {h : Heap α} {m : Mutation α} {c' : ObsListC} {h' : Heap α}
    {out : List (Nat × List α)} (hb : c.batch = false)
    (hM : c.mutateC h m = .ok (c', h', out)) :
    c' = c ∧ ∃ v, pyMutate m (h.mem c.ref) = .ok v ∧
      h' = h.write c.ref v ∧
      out = c.callbacks.map fun cb => (cb, v) := by
  unfold ObsListC.mutateC at hM
  split at hM
  next e heq => simp at hM
  next v heq =>
      simp only [ObsListC.notifyC, hb, Bool.false_eq_true, if_false,
        Except.ok.injEq, Prod.mk.injEq] at hM
      obtain ⟨h1, h2, h3⟩ := hM
      refine ⟨h1.symm, v, heq, h2.symm, ?_⟩
      rw [← h3, Heap.mem_write_self]

/-- A successful mutating call through the descriptor on an
already-materialized instance is a mutating call on its container, whose
updated state is written back to the instance's entry. -/
theorem StatePropL.mutate_ok {α : Type} [DecidableEq α]
    {sp sp' : StatePropL α} {h h' : Heap α} {i : Nat} {m : Mutation α}
    {out : List (Nat × List α)} (c : ObsListC)
    (hc : lookupInst sp.data i = some c)
    (hM : sp.mutate h i m = .ok (sp', h', out)) :
    ∃ c₂ h₂ out₂, c.mutateC h m = .ok (c₂, h₂, out₂) ∧
      sp' = { sp with data := setInst sp.data i c₂ } ∧
      h' = h₂ ∧ out = out₂ := by
  have hget : sp.get h i = (sp, h, c) := by
    unfold StatePropL.get
    rw [hc]
  unfold StatePropL.mutate at hM
  rw [hget] at hM
  dsimp only at hM
  split at hM
  next e heq => simp at hM
  next c₂ h₂ out₂ heq =>
      simp only [Except.ok.injEq, Prod.mk.injEq] at hM
      exact ⟨c₂, h₂, out₂, heq, hM.1.symm, hM.2.1.symm, hM.2.2.symm⟩

/-- C4: Two distinct model instances sharing one list-valued
`StateProperty` get distinct containers wrapping distinct list objects,
each seeded with a copy of the declared initial list, and mutating A's
field leaves B's container wrapping its own copy of the initial value;
likewise for a scalar-valued property. -/
theorem stateprop_instances_independent {α : Type} [DecidableEq α]
    (init : List α) (a b : Nat) (m : Mutation α)
    (sp₁ sp₂ sp₃ : StatePropL α) (h₁ h₂ h₃ : Heap α) (cA cB : ObsListC)
    (out : List (Nat × List α)) (v₀ v : α)
    (spv₁ spv₂ spv₃ : StatePropV α) (dA dB : ObservableValue α)
    (outs : List α)
    (hab : a ≠ b)
    (hA : (StatePropL.mk 0 []).get (Heap.mk 1 fun _ => init) a =
      (sp₁, h₁, cA))
    (hB : sp₁.get h₁ b = (sp₂, h₂, cB))
    (hM : sp₂.mutate h₂ a m = .ok (sp₃, h₃, out))
    (hvA : (StatePropV.mk v₀ []).get a = (spv₁, dA))
    (hvB : spv₁.get b = (spv₂, dB))
    (hvS : spv₂.set a v = (spv₃, outs)) :
    cA.ref ≠ cB.ref ∧
    h₂.mem cA.ref = init ∧
    h₂.mem cB.ref = init ∧
    h₃.mem cB.ref = init ∧
    lookupInst sp₃.data b = some cB ∧
    dA.value = v₀ ∧ dB.value = v₀ ∧
    lookupInst spv₃.data b = some (ObservableValue.mk v₀) := by
  have hba : b ≠ a := Ne.symm hab
  -- materialize A's list container
  have eA : (StatePropL.mk 0 ([] : List (Nat × ObsListC))).get
      (Heap.mk 1 fun _ => init) a =
      (⟨0, [(a, ⟨1, [], false, false⟩)]⟩,
       ⟨2, fun r => if r = 1 then init else init⟩,
       ⟨1, [], false, false⟩) := rfl
  rw [eA] at hA
  simp only [Prod.mk.injEq] at hA
  obtain ⟨hA1, hA2, hA3⟩ := hA
  subst hA1
  subst hA2
  subst hA3
  -- materialize B's list container
  have eL1 : lookupInst [(a, ObsListC.mk 1 [] false false)] b = none := by
    simp [lookupInst, hab]
  have eB : (StatePropL.mk 0 [(a, ObsListC.mk 1 [] false false)]).get
      (Heap.mk 2 fun r => if r = 1 then init else init) b =
      (⟨0, [(a, ⟨1, [], false, false⟩), (b, ⟨2, [], false, false⟩)]⟩,
       ⟨3, fun r => if r = 2 then init else if r = 1 then init else init⟩,
       ⟨2, [], false, false⟩) := by
    unfold StatePropL.get
    rw [eL1]
    rfl
  rw [eB] at hB
  simp only [Prod.mk.injEq] at hB
  obtain ⟨hB1, hB2, hB3⟩ := hB
  subst hB1
  subst hB2
  subst hB3
  -- mutate A's field
  have eL2 : lookupInst [(a, ObsListC.mk 1 [] false false),
      (b, ObsListC.mk 2 [] false false)] a =
      some (ObsListC.mk 1 [] false false) := by
    simp [lookupInst]
  obtain ⟨c₂, h₂', out₂, hmc, hsp₃, hh₃, hout⟩ :=
    StatePropL.mutate_ok (ObsListC.mk 1 [] false false) eL2 hM
  obtain ⟨hc₂, vnew, hpm, hw, ho⟩ := mutateC_nonbatch rfl hmc
  subst hc₂
  subst hsp₃
  subst hw
  subst hh₃
  subst hout
  subst ho
  -- scalar property: materialize both instances and set A's value
  have eVA : (StatePropV.mk v₀ ([] : List (Nat × ObservableValue α))).get
      a = (⟨v₀, [(a, ⟨v₀⟩)]⟩, ⟨v₀⟩) := rfl
  rw [eVA] at hvA
  simp only [Prod.mk.injEq] at hvA
  obtain ⟨hvA1, hvA2⟩ := hvA
  subst hvA1
  subst hvA2
  have eVL1 : lookupInst [(a, ObservableValue.mk v₀)] b = none := by
    simp [lookupInst, hab]
  have eVB : (StatePropV.mk v₀ [(a, ObservableValue.mk v₀)]).get b =
      (⟨v₀, [(a, ⟨v₀⟩), (b, ⟨v₀⟩)]⟩, ⟨v₀⟩) := by
    unfold StatePropV.get
    rw [eVL1]
    rfl
  rw [eVB] at hvB
  simp only [Prod.mk.injEq] at hvB
  obtain ⟨hvB1, hvB2⟩ := hvB
  subst hvB1
  subst hvB2
  have eVL2 : lookupInst [(a, ObservableValue.mk v₀),
      (b, ObservableValue.mk v₀)] a = some ⟨v₀⟩ := by
    simp [lookupInst]
  have eVG : (StatePropV.mk v₀ [(a, ObservableValue.mk v₀),
      (b, ObservableValue.mk v₀)]).get a =
      (⟨v₀, [(a, ⟨v₀⟩), (b, ⟨v₀⟩)]⟩, ⟨v₀⟩) := by
    unfold StatePropV.get
    rw [eVL2]
  unfold StatePropV.set at hvS
  rw [eVG] at hvS
  dsimp only at hvS
  simp only [Prod.mk.injEq] at hvS
  obtain ⟨hvS1, hvS2⟩ := hvS
  subst hvS1
  refine ⟨by simp, by simp, by simp, ?_, ?_, rfl, rfl, ?_⟩
  · simp [Heap.write]
  · rw [lookupInst_setInst_other _ _ _ _ hab]
    simp [lookupInst, hab]
  · rw [lookupInst_setInst_other _ _ _ _ hab]
    simp [lookupInst, hab]

/-- Witness for `stateprop_instances_independent`: two instances of a
model with a list field initialised to `[7]` and a scalar field
initialised to `4`; instance 1 appends `9` to its list and sets its
scalar to `5`, instance 2 keeps `[7]` and `4`. -/
theorem stateprop_instances_independent_witness :
    (1 : Nat) ≠ 2 ∧
    ([7] : List Int) = [7] ∧
    ([7] : List Int) = [7] ∧
    ([7] : List Int) = [7] ∧
    lookupInst [(1, ObsListC.mk 1 [] false false),
        (2, ObsListC.mk 2 [] false false)] 2 =
      some (ObsListC.mk 2 [] false false) ∧
    (4 : Int) = 4 ∧ (4 : Int) = 4 ∧
    lookupInst [(1, ObservableValue.mk (5 : Int)),
        (2, ObservableValue.mk 4)] 2 = some (ObservableValue.mk 4) :=
  stateprop_instances_independent ([7] : List Int) 1 2 (.append 9)
    ⟨0, [(1, ⟨1, [], false, false⟩)]⟩
    ⟨0, [(1, ⟨1, [], false, false⟩), (2, ⟨2, [], false, false⟩)]⟩
    ⟨0, [(1, ⟨1, [], false, false⟩), (2, ⟨2, [], false, false⟩)]⟩
    ⟨2, fun r => if r = 1 then [7] else [7]⟩
    ⟨3, fun r => if r = 2 then [7] else if r = 1 then [7] else [7]⟩
    ⟨3, fun q => if q = 1 then [7, 9]
        else if q = 2 then [7] else if q = 1 then [7] else [7]⟩
    ⟨1, [], false, false⟩ ⟨2, [], false, false⟩ [] 4 5
    ⟨4, [(1, ⟨4⟩)]⟩ ⟨4, [(1, ⟨4⟩), (2, ⟨4⟩)]⟩
    ⟨4, [(1, ⟨5⟩), (2, ⟨4⟩)]⟩ ⟨4⟩ ⟨4⟩ [5]
    (by decide) rfl rfl rfl rfl rfl rfl

/-- C7: Assigning to a list-valued state property mutates the existing
container in place — the instance's entry still holds the same container,
with the same wrapped list object and the same callback chain — the
assignment itself notifies those callbacks (once for `clear`, once for
`extend`), a subsequent mutation still notifies exactly the callbacks
registered before the assignment, and assigning `None` leaves the
collection empty. -/
theorem stateprop_assignment_in_place {α : Type} [DecidableEq α]
    (sp : StatePropL α) (h : Heap α) (i : Nat) (c : ObsListC)
    (vs : List α) (x : α)
    (hc : lookupInst sp.data i = some c) (hb : c.batch = false) :
    lookupInst (sp.set h i (some vs)).1.data i = some c ∧
    ((sp.set h i (some vs)).2.1).mem c.ref = vs ∧
    (sp.set h i (some vs)).2.2 =
      (c.callbacks.map fun cb => (cb, ([] : List α))) ++
        (c.callbacks.map fun cb => (cb, vs)) ∧
    lookupInst (sp.set h i none).1.data i = some c ∧
    ((sp.set h i none).2.1).mem c.ref = [] ∧
    Except.map (fun r => r.2.2)
        ((sp.set h i (some vs)).1.mutate ((sp.set h i (some vs)).2.1) i
          (Mutation.append x)) =
      .ok (c.callbacks.map fun cb => (cb, vs ++ [x])) := by
  have hget : sp.get h i = (sp, h, c) := by
    unfold StatePropL.get
    rw [hc]
  have hset : sp.set h i (some vs) =
      ({ sp with data := setInst sp.data i c },
       (h.write c.ref []).write c.ref vs,
       (c.callbacks.map fun cb => (cb, ([] : List α))) ++
         (c.callbacks.map fun cb => (cb, vs))) := by
    unfold StatePropL.set
    rw [hget]
    dsimp only
    unfold ObsListC.clearC ObsListC.extendC ObsListC.applyListOp
      ObsListC.notifyC
    simp [hb, Heap.mem_write_self]
  have hset0 : sp.set h i none =
      ({ sp with data := setInst sp.data i c },
       h.write c.ref [],
       c.callbacks.map fun cb => (cb, ([] : List α))) := by
    unfold StatePropL.set
    rw [hget]
    dsimp only
    unfold ObsListC.clearC ObsListC.applyListOp ObsListC.notifyC
    simp [hb, Heap.mem_write_self]
  have hlook : lookupInst (setInst sp.data i c) i = some c :=
    lookupInst_setInst_self sp.data i c c hc
  refine ⟨?_, ?_, ?_, ?_, ?_, ?_⟩
  · rw [hset]
    exact hlook
  · rw [hset]
    exact Heap.mem_write_self _ _ _
  · rw [hset]
  · rw [hset0]
    exact hlook
  · rw [hset0]
    exact Heap.mem_write_self _ _ _
  · rw [hset]
    dsimp only
    have hget2 : ({ sp with data := setInst sp.data i c } :
        StatePropL α).get ((h.write c.ref []).write c.ref vs) i =
        ({ sp with data := setInst sp.data i c },
         (h.write c.ref []).write c.ref vs, c) := by
      unfold StatePropL.get
      rw [hlook]
    unfold StatePropL.mutate
    rw [hget2]
    dsimp only
    unfold ObsListC.mutateC
    simp [pyMutate, ObsListC.notifyC, hb, Heap.mem_write_self, Except.map]

/-- Witness for `stateprop_assignment_in_place`: a container wrapping
list object 5 with callback 3 registered; assigning `[9]` keeps the
container and its callback, clears then extends, and a later `append 4`
still notifies callback 3. -/
theorem stateprop_assignment_in_place_witness :
    lookupInst ((StatePropL.mk 0 [(1, ObsListC.mk 5 [3] false false)]).set
        (Heap.mk 6 fun r => if r = 5 then ([1, 2] : List Int) else []) 1
        (some [9])).1.data 1 = some (ObsListC.mk 5 [3] false false) ∧
    (((StatePropL.mk 0 [(1, ObsListC.mk 5 [3] false false)]).set
        (Heap.mk 6 fun r => if r = 5 then ([1, 2] : List Int) else []) 1
        (some [9])).2.1).mem 5 = [9] ∧
    ((StatePropL.mk 0 [(1, ObsListC.mk 5 [3] false false)]).set
        (Heap.mk 6 fun r => if r = 5 then ([1, 2] : List Int) else []) 1
        (some [9])).2.2 = [(3, [])] ++ [(3, [9])] ∧
    lookupInst ((StatePropL.mk 0 [(1, ObsListC.mk 5 [3] false false)]).set
        (Heap.mk 6 fun r => if r = 5 then ([1, 2] : List Int) else []) 1
        none).1.data 1 = some (ObsListC.mk 5 [3] false false) ∧
    (((StatePropL.mk 0 [(1, ObsListC.mk 5 [3] false false)]).set
        (Heap.mk 6 fun r => if r = 5 then ([1, 2] : List Int) else []) 1
        none).2.1).mem 5 = [] ∧
    Except.map (fun r => r.2.2)
        (((StatePropL.mk 0 [(1, ObsListC.mk 5 [3] false false)]).set
            (Heap.mk 6 fun r => if r = 5 then ([1, 2] : List Int) else []) 1
            (some [9])).1.mutate
          (((StatePropL.mk 0 [(1, ObsListC.mk 5 [3] false false)]).set
            (Heap.mk 6 fun r => if r = 5 then ([1, 2] : List Int) else []) 1
            (some [9])).2.1) 1 (Mutation.append 4)) =
      .ok [(3, [9, 4])] :=
  stateprop_assignment_in_place
    (StatePropL.mk 0 [(1, ObsListC.mk 5 [3] false false)])
    (Heap.mk 6 fun r => if r = 5 then ([1, 2] : List Int) else [])
    1 (ObsListC.mk 5 [3] false false) [9] 4 rfl rfl

/-! ## Context / map_command round trip -/

/-- `listenersOf` on an empty registry. -/
theorem listenersOf_nil {β : Type} (m : String) :
    listenersOf (⟨[]⟩ : EventDispatcher β) m = [] := rfl

/-- `listenersOf` looks at the first entry, then the rest. -/
theorem listenersOf_cons {β : Type} (n₀ : String) (s₀ : List β)
    (tl : List (String × List β)) (m : String) :
    listenersOf (⟨(n₀, s₀) :: tl⟩ : EventDispatcher β) m =
      if n₀ = m then s₀ else listenersOf (⟨tl⟩ : EventDispatcher β) m := by
  by_cases h : n₀ = m
  · simp [listenersOf, EventDispatcher.find, List.find?_cons_of_pos, h]
  · simp [listenersOf, EventDispatcher.find, List.find?_cons_of_neg, h]

/-- Effect of `insertListener` on each name's listener set: the inserted
name's set goes through `set.add`, every other set is untouched. -/
theorem listenersOf_insert {β : Type} [DecidableEq β]
    (l : List (String × List β)) (n m : String) (cb : β) :
    listenersOf (⟨insertListener l n cb⟩ : EventDispatcher β) m =
      if n = m then setAdd (listenersOf (⟨l⟩ : EventDispatcher β) m) cb
      else listenersOf (⟨l⟩ : EventDispatcher β) m := by
  induction l with
  | nil =>
      by_cases hnm : n = m
      · simp [insertListener, listenersOf_cons, listenersOf_nil, hnm, setAdd]
      · simp [insertListener, listenersOf_cons, listenersOf_nil, hnm]
  | cons hd tl ih =>
      obtain ⟨n₀, s₀⟩ := hd
      unfold insertListener
      by_cases h₀ : n₀ = n
      · rw [if_pos h₀]
        subst h₀
        by_cases hm : n₀ = m
        · subst hm
          simp [listenersOf_cons]
        · simp [listenersOf_cons, hm]
      · rw [if_neg h₀]
        by_cases hm : n₀ = m
        · subst hm
          have hnm : n ≠ n₀ := fun hh => h₀ hh.symm
          simp [listenersOf_cons, hnm]
        · simp only [listenersOf_cons, if_neg hm]
          exact ih

/-- Adding a fresh tagged lambda to a set whose tags are all below the
fresh tag appends it (the set-membership test cannot fire). -/
theorem setAdd_fresh (s : List (Nat × Nat)) (k c : Nat)
    (hs : ∀ q ∈ s, q.1 < k) : setAdd s (k, c) = s ++ [(k, c)] := by
  have hnot : (k, c) ∉ s := fun hmem => Nat.lt_irrefl k (hs _ hmem)
  unfold setAdd
  rw [if_neg hnot]

/-- Every member of a name's listener set occurs in some registry entry
for that name. -/
theorem mem_listenersOf {β : Type} {d : EventDispatcher β} {n : String}
    {q : β} (hq : q ∈ listenersOf d n) :
    ∃ p ∈ d.listeners, p.1 = n ∧ q ∈ p.2 := by
  unfold listenersOf EventDispatcher.find at hq
  cases hf : d.listeners.find? fun p => p.1 = n with
  | none =>
      rw [hf] at hq
      simp at hq
  | some p =>
      rw [hf] at hq
      simp at hq
      exact ⟨p, List.mem_of_find?_eq_some hf,
        by simpa using List.find?_some hf, hq⟩

/-- Unfolding equation of `expectedListeners` on a cons cell. -/
theorem expectedListeners_cons (start : Nat) (n₀ : String) (c₀ : Nat)
    (ms : List (String × Nat)) (n : String) :
    expectedListeners start ((n₀, c₀) :: ms) n =
      if n₀ = n then (start, c₀) :: expectedListeners (start + 1) ms n
      else expectedListeners (start + 1) ms n := rfl

/-- Installing mappings `ms` into a context whose lambda tags are all
fresh appends, for each name, the tagged lambdas of the matching mappings
in order. -/
theorem runMaps_characterization (ms : List (String × Nat)) :
    ∀ ctx ctx' : Context, tagsBelow ctx.dispatcher ctx.next →
      runMaps ms ctx = .ok ctx' →
      tagsBelow ctx'.dispatcher ctx'.next ∧
      ∀ n, listenersOf ctx'.dispatcher n =
        listenersOf ctx.dispatcher n ++ expectedListeners ctx.next ms n := by
  induction ms with
  | nil =>
      intro ctx ctx' hinv h
      unfold runMaps at h
      simp only [Except.ok.injEq] at h
      subst h
      exact ⟨hinv, fun n => by simp [expectedListeners]⟩
  | cons m₀ ms ih =>
      obtain ⟨n₀, c₀⟩ := m₀
      intro ctx ctx' hinv h
      unfold runMaps at h
      split at h
      next e heq => simp at h
      next ctx₁ heq =>
        unfold Context.map_command at heq
        split at heq
        next e2 heq2 => simp at heq
        next d2 heq2 =>
          simp only [Except.ok.injEq] at heq
          subst heq
          have hd2 : d2 =
              ⟨insertListener ctx.dispatcher.listeners n₀
                (ctx.next, c₀)⟩ := by
            by_cases hn : pyStrip n₀ = ""
            · simp [EventDispatcher.add_listener, validate_non_empty_string,
                validate_callback, hn] at heq2
            · simp [EventDispatcher.add_listener, validate_non_empty_string,
                validate_callback, hn] at heq2
              exact heq2.symm
          subst hd2
          have htags : tagsBelow
              (⟨insertListener ctx.dispatcher.listeners n₀ (ctx.next, c₀)⟩ :
                EventDispatcher (Nat × Nat)) (ctx.next + 1) := by
            intro p hp q hq
            rcases (mem_insertListener hp).2 q hq with ⟨p₀, hp₀, hq₀⟩ | hq₀
            · exact Nat.lt_succ_of_lt (hinv p₀ hp₀ q hq₀)
            · rw [hq₀]
              exact Nat.lt_succ_self _
          have heff : ∀ n, listenersOf
              (⟨insertListener ctx.dispatcher.listeners n₀ (ctx.next, c₀)⟩ :
                EventDispatcher (Nat × Nat)) n =
              listenersOf ctx.dispatcher n ++
                (if n₀ = n then [(ctx.next, c₀)] else []) := by
            intro n
            rw [listenersOf_insert]
            by_cases hn' : n₀ = n
            · rw [if_pos hn', if_pos hn']
              refine setAdd_fresh _ _ _ ?_
              intro q hq
              obtain ⟨p, hp, _, hqp⟩ := mem_listenersOf hq
              exact hinv p hp q hqp
            · rw [if_neg hn', if_neg hn']
              simp
          obtain ⟨hinv', hchar⟩ := ih _ ctx' htags h
          refine ⟨hinv', ?_⟩
          intro n
          rw [hchar n]
          have : listenersOf
              (⟨insertListener ctx.dispatcher.listeners n₀ (ctx.next, c₀)⟩ :
                EventDispatcher (Nat × Nat)) n =
              listenersOf ctx.dispatcher n ++
                (if n₀ = n then [(ctx.next, c₀)] else []) := heff n
          rw [this]
          rw [expectedListeners_cons]
          by_cases hn' : n₀ = n
          · rw [if_pos hn', if_pos hn']
            simp
          · rw [if_neg hn', if_neg hn']
            simp

/-- Mapping the installed tagged lambdas to `execute` calls yields one
call per matching mapping, in installation order. -/
theorem expectedListeners_map (p : PyVal) (ms : List (String × Nat)) :
    ∀ (start : Nat) (n : String),
      (expectedListeners start ms n).map (fun q => (q.2, p)) =
        (ms.filter fun m => m.1 = n).map fun m => (m.2, p) := by
  induction ms with
  | nil =>
      intro start n
      rfl
  | cons m₀ ms ih =>
      obtain ⟨n₀, c₀⟩ := m₀
      intro start n
      by_cases hn : n₀ = n <;>
        simp [expectedListeners, List.filter_cons, hn, ih]

/-- Counting an `execute` call among the calls of the matching mappings
equals counting the mapping itself. -/
theorem occurrences_filter_map (X : String) (p : PyVal) (c : Nat)
    (ms : List (String × Nat)) :
    occurrences (c, p) ((ms.filter fun m => m.1 = X).map fun m => (m.2, p)) =
      occurrences (X, c) ms := by
  induction ms with
  | nil => rfl
  | cons m₀ ms ih =>
      obtain ⟨n₀, c₀⟩ := m₀
      unfold occurrences at ih ⊢
      by_cases hn : n₀ = X
      · subst hn
        by_cases hc : c₀ = c
        · subst hc
          simp only [List.filter_cons, List.map_cons]
          simpa using ih
        · simp only [List.filter_cons, List.map_cons]
          simpa [hc, Prod.ext_iff] using ih
      · simp only [List.filter_cons]
        simpa [hn, Prod.ext_iff] using ih

/-- C5: After installing any sequence of `map_command` mappings in a
fresh context, dispatching `Event(X, p)` performs exactly one
`execute(p)` call per mapping whose name is `X`, in installation order —
in particular once per mapped command when several commands share the
name or one command is mapped under several names. -/
theorem map_command_round_trip (ms : List (String × Nat)) (ctx' : Context)
    (X : String) (p : PyVal) (c : Nat)
    (exec : Nat → PyVal → Except Unit Unit) (r : DispatchResult (Nat × Nat))
    (hrun : runMaps ms Context.init = .ok ctx')
    (hdisp : ctx'.dispatch exec ⟨X, p⟩ = .ok r) :
    executeCalls r = (ms.filter fun m => m.1 = X).map (fun m => (m.2, p)) ∧
    occurrences (c, p) (executeCalls r) = occurrences (X, c) ms := by
  have hinv : tagsBelow (Context.init).dispatcher (Context.init).next := by
    intro q hq
    simp [Context.init, EventDispatcher.init] at hq
  obtain ⟨_, hchar⟩ := runMaps_characterization ms Context.init ctx' hinv hrun
  have hX : listenersOf ctx'.dispatcher X = expectedListeners 0 ms X := by
    have := hchar X
    simpa [Context.init, EventDispatcher.init, listenersOf,
      EventDispatcher.find] using this
  have hmain : executeCalls r =
      (expectedListeners 0 ms X).map fun q => (q.2, p) := by
    unfold Context.dispatch EventDispatcher.dispatch at hdisp
    cases hf : ctx'.dispatcher.find (Event.mk X p).name with
    | none =>
        rw [hf] at hdisp
        simp only [Except.ok.injEq] at hdisp
        subst hdisp
        have hnil : listenersOf ctx'.dispatcher X = [] := by
          unfold listenersOf
          rw [show ctx'.dispatcher.find X = none from hf]
          rfl
        have hexp : expectedListeners 0 ms X = [] := hX.symm.trans hnil
        rw [hexp]
        rfl
    | some cbs =>
        rw [hf] at hdisp
        simp only [Except.ok.injEq] at hdisp
        subst hdisp
        have hcbs : cbs = expectedListeners 0 ms X := by
          have hlo : listenersOf ctx'.dispatcher X = cbs := by
            unfold listenersOf
            rw [show ctx'.dispatcher.find X = some cbs from hf]
            rfl
          exact hlo.symm.trans hX
        subst hcbs
        unfold executeCalls
        rw [dispatchLoop_eq]
        simp [List.map_map, Function.comp]
  constructor
  · rw [hmain, expectedListeners_map]
  · rw [hmain, expectedListeners_map, occurrences_filter_map]

/-- Witness for `map_command_round_trip`: commands 10 and 11 both mapped
to `"X"`, command 10 also mapped to `"Y"`; dispatching `Event("X", 5)`
executes command 10 once and command 11 once, each with payload 5. -/
theorem map_command_round_trip_witness :
    executeCalls ⟨[((0, 10), ⟨"X", .int 5⟩), ((1, 11), ⟨"X", .int 5⟩)],
        false⟩ = [(10, PyVal.int 5), (11, PyVal.int 5)] ∧
    occurrences (10, PyVal.int 5)
        (executeCalls ⟨[((0, 10), ⟨"X", .int 5⟩), ((1, 11), ⟨"X", .int 5⟩)],
          false⟩) = 1 :=
  map_command_round_trip [("X", 10), ("X", 11), ("Y", 10)]
    ⟨⟨[("X", [(0, 10), (1, 11)]), ("Y", [(2, 10)])]⟩, 3⟩ "X" (.int 5) 10
    (fun _ _ => .ok ())
    ⟨[((0, 10), ⟨"X", .int 5⟩), ((1, 11), ⟨"X", .int 5⟩)], false⟩
    rfl rfl

end Swallow
